import Mathlib

/-!
Verification development for the opencode-history resolution and
reconstruction engine (`shared/history.ts`, `typescript/index.ts`).

The TypeScript source is shallowly embedded: every effectful operation
(directory listing, stat, existence test, JSON read, git subprocess) is
mediated by a read-only `World` oracle, and each embedded function returns
its result together with the list of effects it performed, in order.
Machine floats used for `mtimeMs` timestamps are modelled as `Int`
(millisecond epoch values).
-/

/-- A JSON value as produced by `JSON.parse`. -/
inductive Json where
  | jnull : Json
  | jbool : Bool → Json
  | jnum : Int → Json
  | jstr : String → Json
  | jarr : List Json → Json
  | jobj : List (String × Json) → Json

/-- First-match field lookup in an object's field list. -/
def lookupField : List (String × Json) → String → Option Json
  | [], _ => none
  | (k, v) :: rest, key => if k = key then some v else lookupField rest key

/-- `data?.field` access: field lookup, `none` for non-objects. -/
def Json.get? : Json → String → Option Json
  | Json.jobj kvs, key => lookupField kvs key
  | _, _ => none

/-- `typeof data?.field === "string"` access: the field's string value, if any. -/
def Json.strField (j : Json) (key : String) : Option String :=
  match j.get? key with
  | some (Json.jstr s) => some s
  | _ => none

/-- A raw `child_process.spawnSync` result: `status`, `stdout`, `stderr`
are each absent on spawn failure or signal termination. -/
structure SpawnRaw where
  status : Option Int
  stdout : Option String
  stderr : Option String

/-- A directory child as the filesystem reports it: name and mtime. -/
structure FsEntry where
  name : String
  mtimeMs : Int
deriving DecidableEq, Repr

/-- The read-only world oracle: filesystem trees and subprocess behaviour.
`dirs`/`files` return `none` when `readdirSync` would throw (missing or
unreadable directory); `readJson` returns `none` when the read or the
JSON parse fails (`safeReadJson`'s catch). `git args cwd` models
`spawnSync("git", args, {cwd})`; `gitApply cwd input` models the
`spawnSync("git", ["apply", "-R"], {cwd, input})` call of the revert
executor. `fmtDate` models `formatDate(new Date(ms))`, whose output
depends on the ambient local timezone. -/
structure World where
  dirs : String → Option (List FsEntry)
  files : String → Option (List FsEntry)
  fsExists : String → Bool
  readJson : String → Option Json
  git : List String → Option String → SpawnRaw
  gitApply : String → String → SpawnRaw
  fmtDate : Int → String

/-- One observable effect: a filesystem access or a subprocess invocation. -/
inductive Eff where
  | readdir : String → Eff
  | statted : String → Eff
  | pathExists : String → Eff
  | readFile : String → Eff
  | runGitCmd : List String → Option String → Eff
  | applyPatch : String → String → Eff
deriving DecidableEq, Repr

/-- True exactly for subprocess effects (`spawnSync` invocations). -/
def Eff.isSpawn : Eff → Bool
  | Eff.runGitCmd _ _ => true
  | Eff.applyPatch _ _ => true
  | _ => false

/-- True exactly for the working-tree-mutating `git apply -R` effect. -/
def Eff.isApply : Eff → Bool
  | Eff.applyPatch _ _ => true
  | _ => false

/-- `path.join` as used on already-validated segments (no `..`, no
separators), where it coincides with separator concatenation. -/
def pathJoin (a b : String) : String := a ++ "/" ++ b

/-- `os.homedir()`, fixed to a representative value. -/
def homeDir : String := "/home/user"

def storageRoot : String := pathJoin homeDir ".local/share/opencode/storage"

def messageRoot : String := pathJoin storageRoot "message"

def partRoot : String := pathJoin storageRoot "part"

def sessionRoot : String := pathJoin storageRoot "session"

def snapshotRoot : String := pathJoin homeDir ".local/share/opencode/snapshot"

/-- An `Entry` as built by `listDirectories`/`listFiles`. -/
structure Entry where
  name : String
  path : String
  mtimeMs : Int
deriving DecidableEq, Repr

/-- `listDirectories`: subdirectory entries, `[]` when unreadable. -/
def listDirectories (w : World) (dir : String) : List Entry × List Eff :=
  match w.dirs dir with
  | none => ([], [Eff.readdir dir])
  | some es =>
    (es.map (fun e => ⟨e.name, pathJoin dir e.name, e.mtimeMs⟩),
     Eff.readdir dir :: es.map (fun e => Eff.statted (pathJoin dir e.name)))

/-- `listFiles`: file entries, `[]` when unreadable. -/
def listFiles (w : World) (dir : String) : List Entry × List Eff :=
  match w.files dir with
  | none => ([], [Eff.readdir dir])
  | some es =>
    (es.map (fun e => ⟨e.name, pathJoin dir e.name, e.mtimeMs⟩),
     Eff.readdir dir :: es.map (fun e => Eff.statted (pathJoin dir e.name)))

/-- Stable insertion into a descending-by-mtime list: the element passes
entries with strictly greater mtime and lands before the first entry
whose mtime does not exceed it, matching a stable sort with comparator
`(a, b) => b.stat.mtimeMs - a.stat.mtimeMs`. -/
def insertByMtimeDesc (x : Entry) : List Entry → List Entry
  | [] => [x]
  | y :: ys => if x.mtimeMs < y.mtimeMs then y :: insertByMtimeDesc x ys else x :: y :: ys

/-- `sortByMtimeDesc`: stable sort, most recently modified first
(`Array.prototype.sort` is stable). -/
def sortByMtimeDesc : List Entry → List Entry
  | [] => []
  | x :: xs => insertByMtimeDesc x (sortByMtimeDesc xs)

/-- `safeReadJson`: parse a JSON file, `none` on any failure. -/
def safeReadJson (w : World) (p : String) : Option Json × List Eff :=
  (w.readJson p, [Eff.readFile p])

/-- The normalized result `runGit` exposes to callers. -/
structure GitResult where
  status : Int
  stdout : String
  stderr : String
deriving DecidableEq, Repr

/-- `runGit`: spawn git and default an absent exit status to `1` and
absent output streams to `""`. -/
def runGit (w : World) (args : List String) (cwd : Option String) : GitResult × List Eff :=
  let r := w.git args cwd
  ({ status := r.status.getD 1, stdout := r.stdout.getD "", stderr := r.stderr.getD "" },
   [Eff.runGitCmd args cwd])

/-- `gitCatFileExists`: true iff `git cat-file -e` exits with status 0. -/
def gitCatFileExists (w : World) (snapshotDir hash : String) : Bool × List Eff :=
  let r := runGit w ["--git-dir", snapshotDir, "cat-file", "-e", hash] none
  (r.1.status = 0, r.2)

/-- `/^[A-Za-z0-9._-]+$/` character class. -/
def isMsgIdChar (c : Char) : Bool :=
  c.isAlpha || c.isDigit || c = '.' || c = '_' || c = '-'

/-- `isValidMessageId` / the `getMessageDiff` inline check:
`/^[A-Za-z0-9._-]+$/.test(msgId)`. -/
def isValidMessageId (s : String) : Bool :=
  !s.toList.isEmpty && s.toList.all isMsgIdChar

/-- `[A-Za-z0-9_-]` character class. -/
def isSesIdChar (c : Char) : Bool :=
  c.isAlpha || c.isDigit || c = '_' || c = '-'

/-- `isValidSessionId` / the `getSessionMessages` inline check:
`/^ses_[A-Za-z0-9_-]+$/.test(sessionId)`. -/
def isValidSessionId (s : String) : Bool :=
  match s.toList with
  | 's' :: 'e' :: 's' :: '_' :: rest => !rest.isEmpty && rest.all isSesIdChar
  | _ => false

/-- `String.prototype.endsWith`, via character lists (the built-in
byte-level `String.endsWith` does not reduce in the kernel). -/
def strEndsWith (s suffix : String) : Bool :=
  suffix.toList.isSuffixOf s.toList

/-- `String.prototype.startsWith`, via character lists. -/
def strStartsWith (s pre : String) : Bool :=
  pre.toList.isPrefixOf s.toList

/-- Drop the last `n` characters of a string. -/
def strDropRight (s : String) (n : Nat) : String :=
  ⟨s.toList.take (s.toList.length - n)⟩

/-- `file.name.replace(/\.json$/, "")`. -/
def stripJson (s : String) : String :=
  if strEndsWith s ".json" then strDropRight s 5 else s

/-- Split a character list on `'\n'`. -/
def splitOnNl : List Char → List (List Char)
  | [] => [[]]
  | c :: rest =>
    if c = '\n' then [] :: splitOnNl rest
    else
      match splitOnNl rest with
      | [] => [[c]]
      | p :: ps => (c :: p) :: ps

/-- Drop one trailing `'\r'`, if present. -/
def dropCr (l : List Char) : List Char :=
  if l.getLast? = some '\r' then l.dropLast else l

/-- `String.prototype.split(/\r?\n/)`: split on `'\n'`, consuming one
`'\r'` immediately before each separator. -/
def splitLines (s : String) : List String :=
  (splitOnNl s.toList).map (fun l => ⟨dropCr l⟩)

/-- ASCII JavaScript whitespace (`String.prototype.trim`'s class,
restricted to the ASCII range; no claim exercises Unicode spaces). -/
def isJsSpace (c : Char) : Bool :=
  c = ' ' || c = '\t' || c = '\n' || c = '\r' || c = '\x0b' || c = '\x0c'

/-- `String.prototype.trim`, via character lists. -/
def strTrim (s : String) : String :=
  ⟨((s.toList.dropWhile isJsSpace).reverse.dropWhile isJsSpace).reverse⟩

/-- JavaScript `Number(x)` coercion on a JSON value (`none` = `NaN`);
undefined is `NaN`, `null` is `0`, booleans are `0`/`1`. Fractional and
exotic coercions (arrays, non-integer numeric strings) are approximated
by `NaN`; no claim depends on them. -/
def jsNumber : Option Json → Option Int
  | none => none
  | some Json.jnull => some 0
  | some (Json.jbool b) => some (if b then 1 else 0)
  | some (Json.jnum n) => some n
  | some (Json.jstr s) => s.toInt?
  | some (Json.jarr _) => none
  | some (Json.jobj _) => none

/-- `formatTimestamp`: `"(unknown)"` for a non-finite coercion, else the
formatted local date. -/
def formatTimestamp (w : World) (t : Option Json) : String :=
  match jsNumber t with
  | none => "(unknown)"
  | some n => w.fmtDate n

/-- `data?.time && typeof data.time === "object" ? data.time.created :
undefined` applied to a `safeReadJson` result. -/
def createdField : Option Json → Option Json
  | some j =>
    match j.get? "time" with
    | some (Json.jobj kvs) => (Json.jobj kvs).get? "created"
    | _ => none
  | none => none

/-- The `getPatchHash` loop body on one part file: the returned hash when
the file parses to a part whose `type` is `"patch"` and whose `hash` is a
string; `none` (continue scanning) otherwise. -/
def patchHashStep (w : World) (f : Entry) : Option String :=
  match w.readJson f.path with
  | some j =>
    if j.strField "type" = some "patch" then
      match j.get? "hash" with
      | some (Json.jstr h) => some h
      | _ => none
    else none
  | none => none

/-- The `getPatchHash` scan over the part files, first match wins. -/
def patchHashLoop (w : World) : List Entry → Option String × List Eff
  | [] => (none, [])
  | f :: rest =>
    match patchHashStep w f with
    | some h => (some h, [Eff.readFile f.path])
    | none =>
      let r := patchHashLoop w rest
      (r.1, Eff.readFile f.path :: r.2)

/-- The `.json` part files of a message, as `getPatchHash` lists them. -/
def partFilesOf (w : World) (msgId : String) : List Entry :=
  (listFiles w (pathJoin partRoot msgId)).1.filter (fun f => strEndsWith f.name ".json")

/-- `getPatchHash`: hash of the first `"patch"`-typed part of a message. -/
def getPatchHash (w : World) (msgId : String) : Option String × List Eff :=
  let lf := listFiles w (pathJoin partRoot msgId)
  let r := patchHashLoop w (lf.1.filter (fun f => strEndsWith f.name ".json"))
  (r.1, lf.2 ++ r.2)

/-- The `getSessionTitle` scan: carries the last string `title` seen and
returns early on the first title differing from `"(no title)"`. -/
def sessionTitleLoop (w : World) (sessionId : String) (title : String) :
    List Entry → String × List Eff
  | [] => (title, [])
  | d :: rest =>
    let sf := pathJoin d.path (sessionId ++ ".json")
    if w.fsExists sf then
      match w.readJson sf with
      | some j =>
        match j.strField "title" with
        | some t =>
          if t ≠ "(no title)" then (t, [Eff.pathExists sf, Eff.readFile sf])
          else
            let r := sessionTitleLoop w sessionId t rest
            (r.1, Eff.pathExists sf :: Eff.readFile sf :: r.2)
        | none =>
          let r := sessionTitleLoop w sessionId title rest
          (r.1, Eff.pathExists sf :: Eff.readFile sf :: r.2)
      | none =>
        let r := sessionTitleLoop w sessionId title rest
        (r.1, Eff.pathExists sf :: Eff.readFile sf :: r.2)
    else
      let r := sessionTitleLoop w sessionId title rest
      (r.1, Eff.pathExists sf :: r.2)

/-- `getSessionTitle`: scan every project subdirectory for the session's
metadata file and return its title, defaulting to `"(no title)"`. -/
def getSessionTitle (w : World) (sessionId : String) : String × List Eff :=
  let ld := listDirectories w sessionRoot
  let r := sessionTitleLoop w sessionId "(no title)" ld.1
  (r.1, ld.2 ++ r.2)

/-- The `getProjectIdFromSession` scan: first non-empty `projectID`. -/
def projectIdLoop (w : World) (sessionId : String) : List Entry → Option String × List Eff
  | [] => (none, [])
  | d :: rest =>
    let sf := pathJoin d.path (sessionId ++ ".json")
    if w.fsExists sf then
      match w.readJson sf with
      | some j =>
        match j.strField "projectID" with
        | some p =>
          if p ≠ "" then (some p, [Eff.pathExists sf, Eff.readFile sf])
          else
            let r := projectIdLoop w sessionId rest
            (r.1, Eff.pathExists sf :: Eff.readFile sf :: r.2)
        | none =>
          let r := projectIdLoop w sessionId rest
          (r.1, Eff.pathExists sf :: Eff.readFile sf :: r.2)
      | none =>
        let r := projectIdLoop w sessionId rest
        (r.1, Eff.pathExists sf :: Eff.readFile sf :: r.2)
    else
      let r := projectIdLoop w sessionId rest
      (r.1, Eff.pathExists sf :: r.2)

/-- `getProjectIdFromSession`: resolve a session's project by scanning
every project subdirectory for `<sessionId>.json`. -/
def getProjectIdFromSession (w : World) (sessionId : String) : Option String × List Eff :=
  if sessionId = "" then (none, [])
  else
    let ld := listDirectories w sessionRoot
    let r := projectIdLoop w sessionId ld.1
    (r.1, ld.2 ++ r.2)

/-- The `findMessageFile` scan over session directories, newest first. -/
def findMessageLoop (w : World) (msgId : String) :
    List Entry → Option (String × String) × List Eff
  | [] => (none, [])
  | d :: rest =>
    let mp := pathJoin d.path (msgId ++ ".json")
    if w.fsExists mp then
      let j := w.readJson mp
      let sid :=
        match j with
        | some jj =>
          match jj.strField "sessionID" with
          | some s => s
          | none => d.name
        | none => d.name
      (some (mp, sid), [Eff.pathExists mp, Eff.readFile mp])
    else
      let r := findMessageLoop w msgId rest
      (r.1, Eff.pathExists mp :: r.2)

/-- `findMessageFile`: locate a message file and its session id. -/
def findMessageFile (w : World) (msgId : String) : Option (String × String) × List Eff :=
  let ld := listDirectories w messageRoot
  let sds := sortByMtimeDesc (ld.1.filter (fun d => strStartsWith d.name "ses_"))
  let r := findMessageLoop w msgId sds
  (r.1, ld.2 ++ r.2)

/-- `getProjectIdFromMessage`: message → containing session → project. -/
def getProjectIdFromMessage (w : World) (msgId : String) : Option String × List Eff :=
  if msgId = "" then (none, [])
  else
    let f := findMessageFile w msgId
    match f.1 with
    | none => (none, f.2)
    | some info =>
      let r := getProjectIdFromSession w info.2
      (r.1, f.2 ++ r.2)

/-- Collect the `.json` file paths under every project subdirectory
(`getProjectDirectory`'s fallback scan). -/
def collectJsonFiles (w : World) : List Entry → List String × List Eff
  | [] => ([], [])
  | d :: rest =>
    let lf := listFiles w d.path
    let r := collectJsonFiles w rest
    (((lf.1.filter (fun f => strEndsWith f.name ".json")).map (fun f => f.path)) ++ r.1,
     lf.2 ++ r.2)

/-- `getProjectDirectory`'s candidate collection: files under the
same-named project subdirectory first; the all-projects scan only if
that yields no candidates. -/
def projDirCandidates (w : World) (projectId : String) : List String × List Eff :=
  let projectDir := pathJoin sessionRoot projectId
  let phase1 : List String × List Eff :=
    if w.fsExists projectDir then
      let lf := listFiles w projectDir
      ((lf.1.filter (fun f => strEndsWith f.name ".json")).map (fun f => f.path),
       Eff.pathExists projectDir :: lf.2)
    else ([], [Eff.pathExists projectDir])
  if phase1.1.isEmpty then
    let ld := listDirectories w sessionRoot
    let all := collectJsonFiles w ld.1
    (all.1, phase1.2 ++ ld.2 ++ all.2)
  else phase1

/-- The `getProjectDirectory` loop body on one candidate file: its
`directory` when `projectID` matches and `directory` is a string. -/
def projDirStep (w : World) (projectId : String) (p : String) : Option String :=
  match w.readJson p with
  | some j =>
    if j.strField "projectID" = some projectId then
      match j.get? "directory" with
      | some (Json.jstr d) => some d
      | _ => none
    else none
  | none => none

/-- The `getProjectDirectory` scan over candidate files. -/
def projDirLoop (w : World) (projectId : String) : List String → Option String × List Eff
  | [] => (none, [])
  | p :: rest =>
    match projDirStep w projectId p with
    | some d => (some d, [Eff.readFile p])
    | none =>
      let r := projDirLoop w projectId rest
      (r.1, Eff.readFile p :: r.2)

/-- `getProjectDirectory`: the working-tree path recorded for a project. -/
def getProjectDirectory (w : World) (projectId : String) : Option String × List Eff :=
  let c := projDirCandidates w projectId
  let r := projDirLoop w projectId c.1
  (r.1, c.2 ++ r.2)

/-- A `Message` row of `getSessionMessages`. -/
structure Message where
  id : String
  timestamp : String
  hash : String
  hasSnapshot : Bool
deriving DecidableEq, Repr

/-- The `getSessionMessages` message loop. The message is included only
when `if (hash)` holds, i.e. the patch hash is present and non-empty
(the empty string is falsy in JavaScript); `snapshotDir` is `""` when
the session's project could not be resolved, and the snapshot-existence
check is guarded by `snapshotDir`'s truthiness. -/
def sessionMsgLoop (w : World) (snapshotDir : String) : List Entry → List Message × List Eff
  | [] => ([], [])
  | f :: rest =>
    let msgId := stripJson f.name
    let ph := getPatchHash w msgId
    match ph.1 with
    | some h =>
      if h = "" then
        let r := sessionMsgLoop w snapshotDir rest
        (r.1, ph.2 ++ r.2)
      else
        let d := safeReadJson w f.path
        let date := formatTimestamp w (createdField d.1)
        let hs := if snapshotDir ≠ "" then gitCatFileExists w snapshotDir h else (false, [])
        let r := sessionMsgLoop w snapshotDir rest
        ({ id := msgId, timestamp := date, hash := h, hasSnapshot := hs.1 } :: r.1,
         ph.2 ++ d.2 ++ hs.2 ++ r.2)
    | none =>
      let r := sessionMsgLoop w snapshotDir rest
      (r.1, ph.2 ++ r.2)

/-- `getSessionMessages`: the patch-bearing messages of a session,
newest first, each with its snapshot availability. -/
def getSessionMessages (w : World) (sessionId : String) : List Message × List Eff :=
  if ¬ isValidSessionId sessionId then ([], [])
  else
    let sessionDir := pathJoin messageRoot sessionId
    if ¬ w.fsExists sessionDir then ([], [Eff.pathExists sessionDir])
    else
      let pid := getProjectIdFromSession w sessionId
      let snapshotDir :=
        match pid.1 with
        | some p => pathJoin snapshotRoot p
        | none => ""
      let lf := listFiles w sessionDir
      let msgs := sortByMtimeDesc (lf.1.filter (fun f => strEndsWith f.name ".json"))
      let r := sessionMsgLoop w snapshotDir msgs
      (r.1, Eff.pathExists sessionDir :: (pid.2 ++ lf.2 ++ r.2))

/-- The `--work-tree` argument block: present only when the resolved
project directory is truthy and exists on disk (`existsSync` is only
invoked when the directory string is truthy). -/
def workTreeArgs (w : World) : Option String → List String × List Eff
  | some d =>
    if d = "" then ([], [])
    else if w.fsExists d then (["--work-tree", d], [Eff.pathExists d])
    else ([], [Eff.pathExists d])
  | none => ([], [])

/-- The optional `-- <filePath>` diff filter (`if (filePath)`). -/
def pathFilterArgs : Option String → List String
  | some f => if f = "" then [] else ["--", f]
  | none => []

/-- The argument list `getMessageDiff` passes to `git diff`. -/
def messageDiffArgs (w : World) (projectId hash : String) (filePath : Option String) :
    List String :=
  ["--git-dir", pathJoin snapshotRoot projectId]
    ++ (workTreeArgs w (getProjectDirectory w projectId).1).1
    ++ ["diff", hash] ++ pathFilterArgs filePath

/-- `getMessageDiff`: the diff for one message, `none` on invalid id,
missing patch hash (`if (!hash)` — an empty-string hash is falsy and
also returns absent), unresolvable project, missing snapshot directory,
missing hash — and on empty diff output (`result.stdout || null`). -/
def getMessageDiff (w : World) (messageId : String) (filePath : Option String) :
    Option String × List Eff :=
  if ¬ isValidMessageId messageId then (none, [])
  else
    let ph := getPatchHash w messageId
    match ph.1 with
    | none => (none, ph.2)
    | some hash =>
      if hash = "" then (none, ph.2)
      else
      let pid := getProjectIdFromMessage w messageId
      match pid.1 with
      | none => (none, ph.2 ++ pid.2)
      | some projectId =>
        let snapshotDir := pathJoin snapshotRoot projectId
        if ¬ w.fsExists snapshotDir then (none, ph.2 ++ pid.2 ++ [Eff.pathExists snapshotDir])
        else
          let ce := gitCatFileExists w snapshotDir hash
          if ¬ ce.1 then (none, ph.2 ++ pid.2 ++ [Eff.pathExists snapshotDir] ++ ce.2)
          else
            let pd := getProjectDirectory w projectId
            let wt := workTreeArgs w pd.1
            let args := ["--git-dir", snapshotDir] ++ wt.1 ++ ["diff", hash]
              ++ pathFilterArgs filePath
            let r := runGit w args none
            ((if r.1.stdout = "" then none else some r.1.stdout),
             ph.2 ++ pid.2 ++ [Eff.pathExists snapshotDir] ++ ce.2 ++ pd.2 ++ wt.2 ++ r.2)

/-- A `FileHistoryEntry` row of `getFileHistory`. -/
structure FileHistoryEntry where
  messageId : String
  sessionId : String
  sessionTitle : String
  timestamp : String
  hash : String
deriving DecidableEq, Repr

/-- The changed-path set of a hash as `getFileHistory` computes it:
`git diff --name-only`, split on line breaks, blanks dropped. -/
def changedPaths (w : World) (projectId snapshotDir hash : String) :
    List String × List Eff :=
  let pd := getProjectDirectory w projectId
  let wt := workTreeArgs w pd.1
  let args := ["--git-dir", snapshotDir] ++ wt.1 ++ ["diff", "--name-only", hash]
  let r := runGit w args none
  ((splitLines r.1.stdout).filter (fun x => x ≠ ""), pd.2 ++ wt.2 ++ r.2)

/-- The `getFileHistory` loop body on one message file: the produced
entry, or `none` when the message is skipped. `if (!hash) continue`
skips both a missing and an empty-string (falsy) patch hash. -/
def fileHistoryStep (w : World) (filePath sessionId title : String) (f : Entry) :
    Option FileHistoryEntry × List Eff :=
  let msgId := stripJson f.name
  let ph := getPatchHash w msgId
  match ph.1 with
  | none => (none, ph.2)
  | some hash =>
    if hash = "" then (none, ph.2)
    else
    let pid := getProjectIdFromMessage w msgId
    match pid.1 with
    | none => (none, ph.2 ++ pid.2)
    | some projectId =>
      let snapshotDir := pathJoin snapshotRoot projectId
      let ce := gitCatFileExists w snapshotDir hash
      if ¬ ce.1 then (none, ph.2 ++ pid.2 ++ ce.2)
      else
        let cp := changedPaths w projectId snapshotDir hash
        if filePath ∈ cp.1 then
          let d := safeReadJson w f.path
          let date := formatTimestamp w (createdField d.1)
          (some { messageId := msgId, sessionId := sessionId, sessionTitle := title,
                  timestamp := date, hash := hash },
           ph.2 ++ pid.2 ++ ce.2 ++ cp.2 ++ d.2)
        else (none, ph.2 ++ pid.2 ++ ce.2 ++ cp.2)

/-- The `getFileHistory` inner loop over one session's message files. -/
def fileHistoryMsgs (w : World) (filePath sessionId title : String) :
    List Entry → List FileHistoryEntry × List Eff
  | [] => ([], [])
  | f :: rest =>
    let s := fileHistoryStep w filePath sessionId title f
    let r := fileHistoryMsgs w filePath sessionId title rest
    ((match s.1 with | some e => [e] | none => []) ++ r.1, s.2 ++ r.2)

/-- The `getFileHistory` outer loop over the selected session dirs. -/
def fileHistorySessions (w : World) (filePath : String) :
    List Entry → List FileHistoryEntry × List Eff
  | [] => ([], [])
  | d :: rest =>
    let t := getSessionTitle w d.name
    let lf := listFiles w d.path
    let msgs := sortByMtimeDesc (lf.1.filter (fun f => strEndsWith f.name ".json"))
    let m := fileHistoryMsgs w filePath d.name t.1 msgs
    let r := fileHistorySessions w filePath rest
    (m.1 ++ r.1, t.2 ++ lf.2 ++ m.2 ++ r.2)

/-- The `limit` most-recently-modified session directories, as
`getFileHistory` selects them. -/
def takenSessionDirs (w : World) (limit : Nat) : List Entry :=
  (sortByMtimeDesc ((listDirectories w messageRoot).1.filter
    (fun d => strStartsWith d.name "ses_"))).take limit

/-- `getFileHistory`: every change to one file across the `limit`
most-recently-modified sessions. -/
def getFileHistory (w : World) (filePath : String) (limit : Nat) :
    List FileHistoryEntry × List Eff :=
  let ld := listDirectories w messageRoot
  let sds := (sortByMtimeDesc (ld.1.filter (fun d => strStartsWith d.name "ses_"))).take limit
  let r := fileHistorySessions w filePath sds
  (r.1, ld.2 ++ r.2)

/-- The outcome classes of `agent_revert_file`, one per exit path. -/
inductive RevertOutcome where
  | usageError
  | invalidId
  | noPatch
  | noProjectId
  | noSnapshotDir
  | noProjectDir
  | hashMissing
  | fileNotModified
  | diffFailed
  | noChanges
  | cancelled
  | applied
  | applyFailed
deriving DecidableEq, Repr

/-- The tail of `agent_revert_file` once the snapshot directory and the
working tree are validated: hash existence check, changed-file check,
path-scoped diff, confirmation prompt, reverse apply. -/
def revertValidated (w : World) (filePath response snapshotDir projectDir hash : String) :
    RevertOutcome × List Eff :=
  let ce := gitCatFileExists w snapshotDir hash
  if ¬ ce.1 then (RevertOutcome.hashMissing, ce.2)
  else
    let nr := runGit w ["--git-dir", snapshotDir, "--work-tree", projectDir,
      "diff", "--name-only", hash] none
    let filesChanged := (splitLines nr.1.stdout).filter (fun x => x ≠ "")
    if ¬ filePath ∈ filesChanged then (RevertOutcome.fileNotModified, ce.2 ++ nr.2)
    else
      let dr := runGit w ["--git-dir", snapshotDir, "--work-tree", projectDir,
        "diff", hash, "--", filePath] none
      if dr.1.status ≠ 0 then (RevertOutcome.diffFailed, ce.2 ++ nr.2 ++ dr.2)
      else if dr.1.stdout = "" ∨ strTrim dr.1.stdout = "" then
        (RevertOutcome.noChanges, ce.2 ++ nr.2 ++ dr.2)
      else if response ≠ "y" ∧ response ≠ "Y" then
        (RevertOutcome.cancelled, ce.2 ++ nr.2 ++ dr.2)
      else
        let ar := w.gitApply projectDir dr.1.stdout
        ((if ar.status.getD 1 = 0 then RevertOutcome.applied
          else RevertOutcome.applyFailed),
         ce.2 ++ nr.2 ++ dr.2 ++ [Eff.applyPatch projectDir dr.1.stdout])

/-- `agent_revert_file` (typescript/index.ts): locate the patch, show the
path-scoped diff, require explicit confirmation, then reverse-apply the
patch to the working tree. `response` is the trimmed answer the user
gives at the confirmation prompt. -/
def agent_revert_file (w : World) (msgId filePath response : String) :
    RevertOutcome × List Eff :=
  if msgId = "" ∨ filePath = "" then (RevertOutcome.usageError, [])
  else if ¬ isValidMessageId msgId then (RevertOutcome.invalidId, [])
  else
    let ph := getPatchHash w msgId
    match ph.1 with
    | none => (RevertOutcome.noPatch, ph.2)
    | some hash =>
      if hash = "" then (RevertOutcome.noPatch, ph.2)
      else
      let pid := getProjectIdFromMessage w msgId
      match pid.1 with
      | none => (RevertOutcome.noProjectId, ph.2 ++ pid.2)
      | some projectId =>
        let snapshotDir := pathJoin snapshotRoot projectId
        if ¬ w.fsExists snapshotDir then
          (RevertOutcome.noSnapshotDir, ph.2 ++ pid.2 ++ [Eff.pathExists snapshotDir])
        else
          let pd := getProjectDirectory w projectId
          let t0 := ph.2 ++ pid.2 ++ [Eff.pathExists snapshotDir] ++ pd.2
          match pd.1 with
          | none => (RevertOutcome.noProjectDir, t0)
          | some projectDir =>
            if projectDir = "" then (RevertOutcome.noProjectDir, t0)
            else if ¬ w.fsExists projectDir then
              (RevertOutcome.noProjectDir, t0 ++ [Eff.pathExists projectDir])
            else
              let r := revertValidated w filePath response snapshotDir projectDir hash
              (r.1, t0 ++ [Eff.pathExists projectDir] ++ r.2)

/-! ## Concrete worlds for witnesses and counterexamples -/

/-- The empty world: no storage on disk, git cannot be spawned at all. -/
def wEmpty : World where
  dirs := fun _ => none
  files := fun _ => none
  fsExists := fun _ => false
  readJson := fun _ => none
  git := fun _ _ => ⟨none, none, none⟩
  gitApply := fun _ _ => ⟨none, none, none⟩
  fmtDate := fun _ => ""

/-- Session metadata JSON shared by the populated worlds. -/
def sessionMetaJson : Json :=
  Json.jobj [("projectID", Json.jstr "p1"), ("directory", Json.jstr "/proj"),
             ("title", Json.jstr "T")]

/-- Message metadata JSON shared by the populated worlds. -/
def messageMetaJson : Json :=
  Json.jobj [("sessionID", Json.jstr "ses_a"),
             ("time", Json.jobj [("created", Json.jnum 0)])]

/-- Patch part JSON shared by the populated worlds. -/
def patchPartJson : Json :=
  Json.jobj [("type", Json.jstr "patch"), ("hash", Json.jstr "h1")]

/-- A world with one session `ses_a` in project `p1`, one message `m1`
carrying patch hash `h1` that exists in the snapshot; `git diff` of the
hash prints `diffOut`, `git diff --name-only` prints `a.ts`. -/
def wBase (diffOut : String) : World where
  dirs := fun d =>
    if d = messageRoot then some [⟨"ses_a", 10⟩]
    else if d = sessionRoot then some [⟨"p1", 3⟩]
    else none
  files := fun d =>
    if d = pathJoin partRoot "m1" then some [⟨"0.json", 1⟩]
    else if d = pathJoin messageRoot "ses_a" then some [⟨"m1.json", 5⟩]
    else if d = pathJoin sessionRoot "p1" then some [⟨"ses_a.json", 2⟩]
    else none
  fsExists := fun p =>
    p = pathJoin messageRoot "ses_a"
      ∨ p = pathJoin (pathJoin messageRoot "ses_a") "m1.json"
      ∨ p = pathJoin sessionRoot "p1"
      ∨ p = pathJoin (pathJoin sessionRoot "p1") "ses_a.json"
      ∨ p = pathJoin snapshotRoot "p1"
      ∨ p = "/proj"
  readJson := fun p =>
    if p = pathJoin (pathJoin partRoot "m1") "0.json" then some patchPartJson
    else if p = pathJoin (pathJoin messageRoot "ses_a") "m1.json" then some messageMetaJson
    else if p = pathJoin (pathJoin sessionRoot "p1") "ses_a.json" then some sessionMetaJson
    else none
  git := fun args _ =>
    if args = ["--git-dir", pathJoin snapshotRoot "p1", "cat-file", "-e", "h1"] then
      ⟨some 0, some "", some ""⟩
    else if args.contains "--name-only" then ⟨some 0, some "a.ts\n", some ""⟩
    else ⟨some 0, some diffOut, some ""⟩
  gitApply := fun _ _ => ⟨some 0, some "", some ""⟩
  fmtDate := fun _ => "1970-01-01 00:00"

/-- The populated world whose `git diff` output is non-empty. -/
def wHappy : World := wBase "DIFF"

/-- The populated world whose `git diff` output is empty (a path filter
matching an unaffected file behaves this way). -/
def wEmptyDiff : World := wBase ""

/-- A world whose only session-metadata candidate for project `p1` has an
empty-string `directory` field. -/
def wDirBlank : World where
  dirs := fun d => if d = sessionRoot then some [⟨"p1", 3⟩] else none
  files := fun d => if d = pathJoin sessionRoot "p1" then some [⟨"s.json", 0⟩] else none
  fsExists := fun p => p = pathJoin sessionRoot "p1"
  readJson := fun p =>
    if p = pathJoin (pathJoin sessionRoot "p1") "s.json" then
      some (Json.jobj [("projectID", Json.jstr "p1"), ("directory", Json.jstr "")])
    else none
  git := fun _ _ => ⟨none, none, none⟩
  gitApply := fun _ _ => ⟨none, none, none⟩
  fmtDate := fun _ => ""

/-- A world whose message `m8` has three part files: a malformed one, a
tool part, and a patch part with hash `h8`, in that enumeration order. -/
def wParts : World where
  dirs := fun _ => none
  files := fun d =>
    if d = pathJoin partRoot "m8" then
      some [⟨"a.json", 3⟩, ⟨"b.json", 2⟩, ⟨"c.json", 1⟩]
    else none
  fsExists := fun _ => false
  readJson := fun p =>
    if p = pathJoin (pathJoin partRoot "m8") "a.json" then none
    else if p = pathJoin (pathJoin partRoot "m8") "b.json" then
      some (Json.jobj [("type", Json.jstr "tool"), ("tool", Json.jstr "edit")])
    else if p = pathJoin (pathJoin partRoot "m8") "c.json" then
      some (Json.jobj [("type", Json.jstr "patch"), ("hash", Json.jstr "h8")])
    else none
  git := fun _ _ => ⟨none, none, none⟩
  gitApply := fun _ _ => ⟨none, none, none⟩
  fmtDate := fun _ => ""

/-! ## Trace purity -/

/-- Decidable form of "this trace spawns no subprocess". -/
def noSpawnB (t : List Eff) : Bool := t.all (fun e => !e.isSpawn)

/-- Decidable form of "this trace never runs `git apply -R`". -/
def noApplyB (t : List Eff) : Bool := t.all (fun e => !e.isApply)

theorem noApplyB_of_noSpawnB {t : List Eff} (h : noSpawnB t = true) : noApplyB t = true := by
  simp only [noSpawnB, noApplyB, List.all_eq_true] at h ⊢
  intro e he
  have := h e he
  cases e <;> simp_all [Eff.isSpawn, Eff.isApply]

theorem noSpawnB_append {t₁ t₂ : List Eff} (h₁ : noSpawnB t₁ = true) (h₂ : noSpawnB t₂ = true) :
    noSpawnB (t₁ ++ t₂) = true := by
  simp only [noSpawnB, List.all_append, Bool.and_eq_true]
  exact ⟨h₁, h₂⟩

theorem noApplyB_append {t₁ t₂ : List Eff} (h₁ : noApplyB t₁ = true) (h₂ : noApplyB t₂ = true) :
    noApplyB (t₁ ++ t₂) = true := by
  simp only [noApplyB, List.all_append, Bool.and_eq_true]
  exact ⟨h₁, h₂⟩

theorem noSpawnB_listDirectories (w : World) (dir : String) :
    noSpawnB (listDirectories w dir).2 = true := by
  unfold listDirectories
  split
  all_goals simp [noSpawnB, Eff.isSpawn, List.all_eq_true]

theorem noSpawnB_listFiles (w : World) (dir : String) :
    noSpawnB (listFiles w dir).2 = true := by
  unfold listFiles
  split
  all_goals simp [noSpawnB, Eff.isSpawn, List.all_eq_true]

theorem noSpawnB_safeReadJson (w : World) (p : String) :
    noSpawnB (safeReadJson w p).2 = true := rfl

theorem noSpawnB_patchHashLoop (w : World) (l : List Entry) :
    noSpawnB (patchHashLoop w l).2 = true := by
  induction l with
  | nil => rfl
  | cons f rest ih =>
    simp only [patchHashLoop]
    split
    all_goals simp_all [noSpawnB, Eff.isSpawn]

theorem noSpawnB_getPatchHash (w : World) (msgId : String) :
    noSpawnB (getPatchHash w msgId).2 = true :=
  noSpawnB_append (noSpawnB_listFiles w _) (noSpawnB_patchHashLoop w _)

theorem noSpawnB_sessionTitleLoop (w : World) (sessionId title : String) (l : List Entry) :
    noSpawnB (sessionTitleLoop w sessionId title l).2 = true := by
  induction l generalizing title with
  | nil => rfl
  | cons d rest ih =>
    simp only [sessionTitleLoop]
    split <;> try split <;> try split <;> try split
    all_goals simp_all [noSpawnB, Eff.isSpawn]
    all_goals exact ih _

theorem noSpawnB_getSessionTitle (w : World) (sessionId : String) :
    noSpawnB (getSessionTitle w sessionId).2 = true :=
  noSpawnB_append (noSpawnB_listDirectories w _) (noSpawnB_sessionTitleLoop w _ _ _)

theorem noSpawnB_projectIdLoop (w : World) (sessionId : String) (l : List Entry) :
    noSpawnB (projectIdLoop w sessionId l).2 = true := by
  induction l with
  | nil => rfl
  | cons d rest ih =>
    simp only [projectIdLoop]
    split <;> try split <;> try split <;> try split
    all_goals simp_all [noSpawnB, Eff.isSpawn]

theorem noSpawnB_getProjectIdFromSession (w : World) (sessionId : String) :
    noSpawnB (getProjectIdFromSession w sessionId).2 = true := by
  unfold getProjectIdFromSession
  split
  · rfl
  · exact noSpawnB_append (noSpawnB_listDirectories w _) (noSpawnB_projectIdLoop w _ _)

theorem noSpawnB_findMessageLoop (w : World) (msgId : String) (l : List Entry) :
    noSpawnB (findMessageLoop w msgId l).2 = true := by
  induction l with
  | nil => rfl
  | cons d rest ih =>
    simp only [findMessageLoop]
    split
    all_goals simp_all [noSpawnB, Eff.isSpawn]

theorem noSpawnB_findMessageFile (w : World) (msgId : String) :
    noSpawnB (findMessageFile w msgId).2 = true :=
  noSpawnB_append (noSpawnB_listDirectories w _) (noSpawnB_findMessageLoop w _ _)

theorem noSpawnB_getProjectIdFromMessage (w : World) (msgId : String) :
    noSpawnB (getProjectIdFromMessage w msgId).2 = true := by
  unfold getProjectIdFromMessage
  split
  · rfl
  · cases h : (findMessageFile w msgId).1 with
    | none => simpa [h] using noSpawnB_findMessageFile w msgId
    | some info =>
      simp only [h]
      exact noSpawnB_append (noSpawnB_findMessageFile w msgId)
        (noSpawnB_getProjectIdFromSession w info.2)

theorem noSpawnB_collectJsonFiles (w : World) (l : List Entry) :
    noSpawnB (collectJsonFiles w l).2 = true := by
  induction l with
  | nil => rfl
  | cons d rest ih => exact noSpawnB_append (noSpawnB_listFiles w _) ih

theorem noSpawnB_projDirCandidates (w : World) (projectId : String) :
    noSpawnB (projDirCandidates w projectId).2 = true := by
  have h1 := noSpawnB_listFiles w (pathJoin sessionRoot projectId)
  have h2 := noSpawnB_listDirectories w sessionRoot
  have h3 := noSpawnB_collectJsonFiles w (listDirectories w sessionRoot).1
  simp only [projDirCandidates]
  split <;> split
  all_goals simp_all [noSpawnB, Eff.isSpawn, List.all_append]

theorem noSpawnB_projDirLoop (w : World) (projectId : String) (l : List String) :
    noSpawnB (projDirLoop w projectId l).2 = true := by
  induction l with
  | nil => rfl
  | cons p rest ih =>
    simp only [projDirLoop]
    split
    all_goals simp_all [noSpawnB, Eff.isSpawn]

theorem noSpawnB_getProjectDirectory (w : World) (projectId : String) :
    noSpawnB (getProjectDirectory w projectId).2 = true :=
  noSpawnB_append (noSpawnB_projDirCandidates w _) (noSpawnB_projDirLoop w _ _)

theorem noApplyB_runGit (w : World) (args : List String) (cwd : Option String) :
    noApplyB (runGit w args cwd).2 = true := rfl

theorem noApplyB_gitCatFileExists (w : World) (snapshotDir hash : String) :
    noApplyB (gitCatFileExists w snapshotDir hash).2 = true := rfl

theorem noApplyB_workTreeArgs (w : World) (pd : Option String) :
    noApplyB (workTreeArgs w pd).2 = true := by
  unfold workTreeArgs
  split
  · split <;> simp [noApplyB, Eff.isApply]
    split <;> simp [noApplyB, Eff.isApply]
  · rfl

theorem noApplyB_changedPaths (w : World) (projectId snapshotDir hash : String) :
    noApplyB (changedPaths w projectId snapshotDir hash).2 = true := by
  unfold changedPaths
  exact noApplyB_append
    (noApplyB_append (noApplyB_of_noSpawnB (noSpawnB_getProjectDirectory w _))
      (noApplyB_workTreeArgs w _))
    (noApplyB_runGit w _ _)

theorem noApplyB_fileHistoryStep (w : World) (filePath sessionId title : String) (f : Entry) :
    noApplyB (fileHistoryStep w filePath sessionId title f).2 = true := by
  have h1 := noApplyB_of_noSpawnB (noSpawnB_getPatchHash w (stripJson f.name))
  have h2 := noApplyB_of_noSpawnB (noSpawnB_getProjectIdFromMessage w (stripJson f.name))
  have h4 := noApplyB_of_noSpawnB (noSpawnB_safeReadJson w f.path)
  simp only [fileHistoryStep]
  split
  · exact h1
  · split
    · exact h1
    · split
      · exact noApplyB_append h1 h2
      · split
        · exact noApplyB_append (noApplyB_append h1 h2) (noApplyB_gitCatFileExists w _ _)
        · split
          · exact noApplyB_append
              (noApplyB_append
                (noApplyB_append (noApplyB_append h1 h2) (noApplyB_gitCatFileExists w _ _))
                (noApplyB_changedPaths w _ _ _)) h4
          · exact noApplyB_append
              (noApplyB_append (noApplyB_append h1 h2) (noApplyB_gitCatFileExists w _ _))
              (noApplyB_changedPaths w _ _ _)

theorem noApplyB_fileHistoryMsgs (w : World) (filePath sessionId title : String)
    (l : List Entry) : noApplyB (fileHistoryMsgs w filePath sessionId title l).2 = true := by
  induction l with
  | nil => rfl
  | cons f rest ih =>
    exact noApplyB_append (noApplyB_fileHistoryStep w filePath sessionId title f) ih

theorem noApplyB_fileHistorySessions (w : World) (filePath : String) (l : List Entry) :
    noApplyB (fileHistorySessions w filePath l).2 = true := by
  induction l with
  | nil => rfl
  | cons d rest ih =>
    exact noApplyB_append
      (noApplyB_append
        (noApplyB_append (noApplyB_of_noSpawnB (noSpawnB_getSessionTitle w d.name))
          (noApplyB_of_noSpawnB (noSpawnB_listFiles w d.path)))
        (noApplyB_fileHistoryMsgs w filePath d.name _ _)) ih

theorem noApplyB_getFileHistory (w : World) (filePath : String) (limit : Nat) :
    noApplyB (getFileHistory w filePath limit).2 = true :=
  noApplyB_append (noApplyB_of_noSpawnB (noSpawnB_listDirectories w messageRoot))
    (noApplyB_fileHistorySessions w filePath _)

theorem noSpawnB_sessionMsgLoop_noSnapshot (w : World) (l : List Entry) :
    noSpawnB (sessionMsgLoop w "" l).2 = true := by
  induction l with
  | nil => rfl
  | cons f rest ih =>
    simp only [sessionMsgLoop]
    split
    · split
      · exact noSpawnB_append (noSpawnB_getPatchHash w _) ih
      · exact noSpawnB_append
          (noSpawnB_append
            (noSpawnB_append (noSpawnB_getPatchHash w _) (noSpawnB_safeReadJson w _))
            (by rfl)) ih
    · exact noSpawnB_append (noSpawnB_getPatchHash w _) ih

/-! ## Sorting -/

/-- Descending mtime order, the sort's invariant relation. -/
def mtimeGE (a b : Entry) : Prop := b.mtimeMs ≤ a.mtimeMs

theorem insertByMtimeDesc_perm (x : Entry) (l : List Entry) :
    (insertByMtimeDesc x l).Perm (x :: l) := by
  induction l with
  | nil => exact List.Perm.refl _
  | cons y ys ih =>
    simp only [insertByMtimeDesc]
    split
    · exact ((ih.cons y).trans (List.Perm.swap x y ys)).symm.symm
    · exact List.Perm.refl _

theorem sortByMtimeDesc_perm (l : List Entry) : (sortByMtimeDesc l).Perm l := by
  induction l with
  | nil => exact List.Perm.refl _
  | cons x xs ih =>
    exact (insertByMtimeDesc_perm x (sortByMtimeDesc xs)).trans (ih.cons x)

theorem mem_sortByMtimeDesc {a : Entry} {l : List Entry} :
    a ∈ sortByMtimeDesc l ↔ a ∈ l :=
  (sortByMtimeDesc_perm l).mem_iff

theorem sorted_insertByMtimeDesc {x : Entry} {l : List Entry}
    (h : l.Pairwise mtimeGE) : (insertByMtimeDesc x l).Pairwise mtimeGE := by
  induction l with
  | nil => exact List.pairwise_singleton _ _
  | cons y ys ih =>
    simp only [insertByMtimeDesc]
    rcases List.pairwise_cons.1 h with ⟨hy, hys⟩
    split
    · refine List.pairwise_cons.2 ⟨?_, ih hys⟩
      intro a ha
      rcases List.mem_cons.1 ((insertByMtimeDesc_perm x ys).mem_iff.1 ha) with rfl | ha
      · exact le_of_lt (by assumption)
      · exact hy a ha
    · refine List.pairwise_cons.2 ⟨?_, h⟩
      intro a ha
      rcases List.mem_cons.1 ha with rfl | ha
      · exact le_of_not_lt (by assumption)
      · exact le_trans (hy a ha) (le_of_not_lt (by assumption))

theorem sorted_sortByMtimeDesc (l : List Entry) :
    (sortByMtimeDesc l).Pairwise mtimeGE := by
  induction l with
  | nil => exact List.Pairwise.nil
  | cons x xs ih => exact sorted_insertByMtimeDesc ih

/-- First-match lookup by a key function returns the element itself when
the keys are duplicate-free. -/
theorem find?_key_eq {k : Entry → String} {l : List Entry} {x : Entry}
    (hx : x ∈ l) (hnd : (l.map k).Nodup) :
    l.find? (fun e => k e == k x) = some x := by
  induction l with
  | nil => cases hx
  | cons y ys ih =>
    simp only [List.map_cons] at hnd
    rcases List.nodup_cons.1 hnd with ⟨hy, hys⟩
    rcases List.mem_cons.1 hx with rfl | hx
    · simp [List.find?]
    · have hne : k y ≠ k x := fun h => hy (h ▸ List.mem_map_of_mem k hx)
      rw [List.find?_cons_of_neg _ (by simpa using hne)]
      exact ih hx hys

/-! ## Loop characterizations -/

theorem patchHashLoop_fst (w : World) (l : List Entry) :
    (patchHashLoop w l).1 = (l.filterMap (patchHashStep w)).head? := by
  induction l with
  | nil => rfl
  | cons f rest ih =>
    simp only [patchHashLoop, List.filterMap_cons]
    split
    all_goals simp_all

theorem projDirLoop_fst (w : World) (projectId : String) (l : List String) :
    (projDirLoop w projectId l).1 = (l.filterMap (projDirStep w projectId)).head? := by
  induction l with
  | nil => rfl
  | cons p rest ih =>
    simp only [projDirLoop, List.filterMap_cons]
    split
    all_goals simp_all

theorem fileHistoryMsgs_fst (w : World) (filePath sessionId title : String) (l : List Entry) :
    (fileHistoryMsgs w filePath sessionId title l).1 =
      l.filterMap (fun f => (fileHistoryStep w filePath sessionId title f).1) := by
  induction l with
  | nil => rfl
  | cons f rest ih =>
    simp only [fileHistoryMsgs, List.filterMap_cons]
    cases (fileHistoryStep w filePath sessionId title f).1
    all_goals simp_all

/-- One session's contribution to `getFileHistory`. -/
def sessionChunk (w : World) (filePath : String) (d : Entry) : List FileHistoryEntry :=
  (fileHistoryMsgs w filePath d.name (getSessionTitle w d.name).1
    (sortByMtimeDesc ((listFiles w d.path).1.filter (fun f => strEndsWith f.name ".json")))).1

theorem fileHistorySessions_fst (w : World) (filePath : String) (l : List Entry) :
    (fileHistorySessions w filePath l).1 = l.flatMap (sessionChunk w filePath) := by
  induction l with
  | nil => rfl
  | cons d rest ih =>
    simp only [fileHistorySessions, List.flatMap_cons, sessionChunk]
    simp_all

theorem getFileHistory_fst (w : World) (filePath : String) (limit : Nat) :
    (getFileHistory w filePath limit).1 =
      (takenSessionDirs w limit).flatMap (sessionChunk w filePath) := by
  simp only [getFileHistory, takenSessionDirs]
  exact fileHistorySessions_fst w filePath _

theorem listDirectories_path {w : World} {dir : String} {d : Entry}
    (hd : d ∈ (listDirectories w dir).1) : d.path = pathJoin dir d.name := by
  unfold listDirectories at hd
  cases h : w.dirs dir with
  | none => simp [h] at hd
  | some es =>
    simp only [h, List.mem_map] at hd
    rcases hd with ⟨x, _, rfl⟩
    rfl

theorem listFiles_path {w : World} {dir : String} {f : Entry}
    (hf : f ∈ (listFiles w dir).1) : f.path = pathJoin dir f.name := by
  unfold listFiles at hf
  cases h : w.files dir with
  | none => simp [h] at hf
  | some es =>
    simp only [h, List.mem_map] at hf
    rcases hf with ⟨x, _, rfl⟩
    rfl

/-- What must have held for `fileHistoryStep` to produce an entry. -/
theorem fileHistoryStep_eq_some {w : World} {filePath sessionId title : String} {f : Entry}
    {e : FileHistoryEntry} (h : (fileHistoryStep w filePath sessionId title f).1 = some e) :
    e.messageId = stripJson f.name ∧ e.sessionId = sessionId ∧ e.sessionTitle = title ∧
      (getPatchHash w (stripJson f.name)).1 = some e.hash ∧
      ∃ projectId, (getProjectIdFromMessage w (stripJson f.name)).1 = some projectId ∧
        (gitCatFileExists w (pathJoin snapshotRoot projectId) e.hash).1 = true ∧
        filePath ∈ (changedPaths w projectId (pathJoin snapshotRoot projectId) e.hash).1 := by
  simp only [fileHistoryStep] at h
  split at h
  · cases h
  · split at h
    · cases h
    · split at h
      · cases h
      · split at h
        · cases h
        · split at h
          · rcases Option.some.inj h with rfl
            refine ⟨rfl, rfl, rfl, by assumption, ?_⟩
            exact ⟨_, by assumption, by simpa using (by assumption : ¬¬_), by assumption⟩
          · cases h

/-! ## Claim theorems -/

/-- Claim C2: `getMessageDiff` returns absent when the message id fails
validation (returning before any filesystem or subprocess effect), when
the message has no patch hash, when no project id resolves, when the
project's snapshot directory is missing, and when the hash is not in the
snapshot repository. -/
theorem c2_message_diff_absent (w : World) (m : String) (fp : Option String) :
    (isValidMessageId m = false → getMessageDiff w m fp = (none, [])) ∧
    ((getPatchHash w m).1 = none → (getMessageDiff w m fp).1 = none) ∧
    ((getProjectIdFromMessage w m).1 = none → (getMessageDiff w m fp).1 = none) ∧
    (∀ p, (getProjectIdFromMessage w m).1 = some p →
      w.fsExists (pathJoin snapshotRoot p) = false → (getMessageDiff w m fp).1 = none) ∧
    (∀ p h, (getPatchHash w m).1 = some h → (getProjectIdFromMessage w m).1 = some p →
      (gitCatFileExists w (pathJoin snapshotRoot p) h).1 = false →
      (getMessageDiff w m fp).1 = none) := by
  refine ⟨?_, ?_, ?_, ?_, ?_⟩
  · intro hv
    simp [getMessageDiff, hv]
  · intro hph
    by_cases hv : isValidMessageId m
    · simp [getMessageDiff, hv, hph]
    · simp [getMessageDiff, hv]
  · intro hpid
    by_cases hv : isValidMessageId m
    · cases hph : (getPatchHash w m).1 with
      | none => simp [getMessageDiff, hv, hph]
      | some h =>
        by_cases hh : h = ""
        · simp [getMessageDiff, hv, hph, hh]
        · simp [getMessageDiff, hv, hph, hh, hpid]
    · simp [getMessageDiff, hv]
  · intro p hpid hex
    by_cases hv : isValidMessageId m
    · cases hph : (getPatchHash w m).1 with
      | none => simp [getMessageDiff, hv, hph]
      | some h =>
        by_cases hh : h = ""
        · simp [getMessageDiff, hv, hph, hh]
        · simp [getMessageDiff, hv, hph, hh, hpid, hex]
    · simp [getMessageDiff, hv]
  · intro p h hph hpid hce
    by_cases hv : isValidMessageId m
    · by_cases hh : h = ""
      · simp [getMessageDiff, hv, hph, hh]
      · by_cases hex : w.fsExists (pathJoin snapshotRoot p)
        · simp [getMessageDiff, hv, hph, hh, hpid, hex, hce]
        · simp [getMessageDiff, hv, hph, hh, hpid,
            (by simpa using hex : w.fsExists (pathJoin snapshotRoot p) = false)]
    · simp [getMessageDiff, hv]

theorem c2_witness :
    isValidMessageId "../etc/passwd" = false ∧
    getMessageDiff wEmpty "../etc/passwd" none = (none, []) :=
  ⟨by decide, (c2_message_diff_absent wEmpty "../etc/passwd" none).1 (by decide)⟩

theorem msgId_invalid_of_bad_char {s : String} {c : Char} (hc : c ∈ s.toList)
    (hbad : isMsgIdChar c = false) : isValidMessageId s = false := by
  by_contra h
  have hv : isValidMessageId s = true := by simpa using h
  simp only [isValidMessageId, Bool.and_eq_true, List.all_eq_true] at hv
  have := hv.2 c hc
  simp_all

theorem sesId_invalid_of_bad_char {s : String} {c : Char} (hc : c ∈ s.toList)
    (hbad : isSesIdChar c = false) (h1 : c ≠ 's') (h2 : c ≠ 'e') (h3 : c ≠ '_') :
    isValidSessionId s = false := by
  by_contra h
  have hv : isValidSessionId s = true := by simpa using h
  unfold isValidSessionId at hv
  split at hv
  · rename_i rest heq
    rw [heq] at hc
    simp only [List.mem_cons] at hc
    rcases hc with rfl | rfl | rfl | rfl | hc
    · exact h1 rfl
    · exact h2 rfl
    · exact h1 rfl
    · exact h3 rfl
    · simp only [Bool.and_eq_true, List.all_eq_true] at hv
      have := hv.2 c hc
      simp_all
  · cases hv

/-- Claim C3: session and message ids are validated against the
allow-listed patterns before any filesystem path or subprocess argument
is built from them: an invalid session id makes `getSessionMessages`
return an empty list with an empty effect trace, an invalid message id
makes `getMessageDiff` return absent with an empty effect trace, and any
id containing a path separator, a space, or a shell metacharacter fails
the respective pattern. -/
theorem c3_identifier_validation (w : World) (s m : String) (fp : Option String) (c : Char) :
    (isValidSessionId s = false → getSessionMessages w s = ([], [])) ∧
    (isValidMessageId m = false → getMessageDiff w m fp = (none, [])) ∧
    (c ∈ m.toList → isMsgIdChar c = false → isValidMessageId m = false) ∧
    (c ∈ s.toList → isSesIdChar c = false → c ≠ 's' → c ≠ 'e' → c ≠ '_' →
      isValidSessionId s = false) ∧
    (isMsgIdChar '/' = false ∧ isMsgIdChar ' ' = false ∧ isMsgIdChar ';' = false ∧
      isMsgIdChar '|' = false ∧ isMsgIdChar '&' = false ∧ isMsgIdChar '$' = false) ∧
    (isSesIdChar '/' = false ∧ isSesIdChar ' ' = false ∧ isSesIdChar ';' = false ∧
      isSesIdChar '|' = false ∧ isSesIdChar '&' = false ∧ isSesIdChar '$' = false) := by
  refine ⟨?_, ?_, ?_, ?_, by decide, by decide⟩
  · intro hv
    simp [getSessionMessages, hv]
  · intro hv
    simp [getMessageDiff, hv]
  · intro hc hbad
    exact msgId_invalid_of_bad_char hc hbad
  · intro hc hbad h1 h2 h3
    exact sesId_invalid_of_bad_char hc hbad h1 h2 h3

theorem c3_witness :
    getSessionMessages wEmpty "ses_x; rm -rf /" = ([], []) ∧
    isValidSessionId "ses_x; rm -rf /" = false ∧
    isValidMessageId "a/../b" = false :=
  ⟨(c3_identifier_validation wEmpty "ses_x; rm -rf /" "a/../b" none ';').1 (by decide),
   (c3_identifier_validation wEmpty "ses_x; rm -rf /" "a/../b" none ';').2.2.2.1
     (by decide) (by decide) (by decide) (by decide) (by decide),
   (c3_identifier_validation wEmpty "ses_x; rm -rf /" "a/../b" none '/').2.2.1
     (by decide) (by decide)⟩

theorem gitCatFileExists_false_of_fail {w : World} (d h : String)
    (hfail : ∀ a c, (w.git a c).status = none) :
    (gitCatFileExists w d h).1 = false := by
  simp [gitCatFileExists, runGit, hfail]

theorem sessionMsgLoop_hasSnapshot_false_of_fail {w : World} (sd : String) (l : List Entry)
    (hfail : ∀ a c, (w.git a c).status = none) :
    ∀ msg ∈ (sessionMsgLoop w sd l).1, msg.hasSnapshot = false := by
  induction l with
  | nil => intro msg hm; cases hm
  | cons f rest ih =>
    intro msg hm
    simp only [sessionMsgLoop] at hm
    split at hm
    · split at hm
      · exact ih msg hm
      · rcases List.mem_cons.1 hm with rfl | hm
        · by_cases hsd : sd ≠ ""
          · simp [hsd, gitCatFileExists_false_of_fail sd _ hfail]
          · simp [hsd]
        · exact ih msg hm
    · exact ih msg hm

theorem fileHistoryStep_none_of_fail {w : World} (filePath sessionId title : String)
    (f : Entry) (hfail : ∀ a c, (w.git a c).status = none) :
    (fileHistoryStep w filePath sessionId title f).1 = none := by
  simp only [fileHistoryStep]
  split
  · rfl
  · split
    · rfl
    · split
      · rfl
      · rw [if_pos]
        simp [gitCatFileExists_false_of_fail _ _ hfail]

/-- Claim C10: `runGit` maps an absent subprocess exit status to failure
status 1 and absent output streams to empty strings; consequently
`gitCatFileExists` answers false on spawn failure, and when git cannot be
run at all every read operation degrades: `getMessageDiff` is absent,
every `getSessionMessages` row has `hasSnapshot = false`, and
`getFileHistory` is empty — none of them raises. -/
theorem c10_git_degradation (w : World) (args : List String) (cwd : Option String)
    (d h sid m fpath : String) (fp : Option String) (limit : Nat) :
    ((w.git args cwd).status = none → (runGit w args cwd).1.status = 1) ∧
    ((w.git args cwd).stdout = none → (runGit w args cwd).1.stdout = "") ∧
    ((w.git args cwd).stderr = none → (runGit w args cwd).1.stderr = "") ∧
    ((w.git ["--git-dir", d, "cat-file", "-e", h] none).status = none →
      (gitCatFileExists w d h).1 = false) ∧
    ((∀ a c, (w.git a c).status = none) →
      (getMessageDiff w m fp).1 = none ∧
      (∀ msg ∈ (getSessionMessages w sid).1, msg.hasSnapshot = false) ∧
      (getFileHistory w fpath limit).1 = []) := by
  refine ⟨?_, ?_, ?_, ?_, ?_⟩
  · intro hs; simp [runGit, hs]
  · intro hs; simp [runGit, hs]
  · intro hs; simp [runGit, hs]
  · intro hs; simp [gitCatFileExists, runGit, hs]
  · intro hfail
    refine ⟨?_, ?_, ?_⟩
    · by_cases hv : isValidMessageId m
      · cases hph : (getPatchHash w m).1 with
        | none => simp [getMessageDiff, hv, hph]
        | some hh =>
          by_cases hhh : hh = ""
          · simp [getMessageDiff, hv, hph, hhh]
          · cases hpid : (getProjectIdFromMessage w m).1 with
            | none => simp [getMessageDiff, hv, hph, hhh, hpid]
            | some p =>
              by_cases hex : w.fsExists (pathJoin snapshotRoot p)
              · simp [getMessageDiff, hv, hph, hhh, hpid, hex,
                  gitCatFileExists_false_of_fail _ _ hfail]
              · simp [getMessageDiff, hv, hph, hhh, hpid,
                  (by simpa using hex : w.fsExists (pathJoin snapshotRoot p) = false)]
      · simp [getMessageDiff, hv]
    · by_cases hv : isValidSessionId sid
      · by_cases hex : w.fsExists (pathJoin messageRoot sid)
        · intro msg hm
          simp only [getSessionMessages, hv, hex] at hm
          simp only [not_true, if_false, if_true] at hm
          exact sessionMsgLoop_hasSnapshot_false_of_fail _ _ hfail msg (by simpa using hm)
        · intro msg hm
          simp [getSessionMessages, hv,
            (by simpa using hex : w.fsExists (pathJoin messageRoot sid) = false)] at hm
      · intro msg hm
        simp [getSessionMessages, hv] at hm
    · rw [getFileHistory_fst]
      rw [List.flatMap_eq_nil_iff]
      intro d hd
      simp only [sessionChunk, fileHistoryMsgs_fst]
      rw [List.filterMap_eq_nil_iff]
      intro f hf
      exact fileHistoryStep_none_of_fail _ _ _ f hfail

theorem c10_witness :
    (runGit wEmpty ["status"] none).1.status = 1 ∧
    (gitCatFileExists wEmpty "/snap" "h").1 = false ∧
    (getMessageDiff wEmpty "m1" none).1 = none ∧
    (getFileHistory wEmpty "a.ts" 10).1 = [] := by
  have h := c10_git_degradation wEmpty ["status"] none "/snap" "h" "ses_a" "m1" "a.ts" none 10
  exact ⟨h.1 rfl, h.2.2.2.1 rfl, (h.2.2.2.2 (fun _ _ => rfl)).1,
    (h.2.2.2.2 (fun _ _ => rfl)).2.2⟩

/-- Well-formedness of one part file, per the data model: if it parses
and is `"patch"`-typed, it carries a string `hash`. -/
def partWellFormed (w : World) (f : Entry) : Bool :=
  match w.readJson f.path with
  | some j =>
    !(j.strField "type" == some "patch") ||
      (match j.get? "hash" with
       | some (Json.jstr _) => true
       | _ => false)
  | none => true

theorem patchScan_eq {w : World} {l : List Entry}
    (hwf : l.all (partWellFormed w) = true) :
    (l.filterMap (patchHashStep w)).head? =
      ((l.filterMap (fun f => w.readJson f.path)).find?
        (fun j => j.strField "type" == some "patch")).bind (fun j => j.strField "hash") := by
  induction l with
  | nil => rfl
  | cons f rest ih =>
    simp only [List.all_cons, Bool.and_eq_true] at hwf
    rcases hwf with ⟨hf, hrest⟩
    simp only [List.filterMap_cons]
    cases hj : w.readJson f.path with
    | none =>
      have : patchHashStep w f = none := by simp [patchHashStep, hj]
      simp [this, ih hrest]
    | some j =>
      by_cases hp : j.strField "type" = some "patch"
      · unfold partWellFormed at hf
        rw [hj] at hf
        simp only [hp, beq_self_eq_true, Bool.not_true, Bool.false_or] at hf
        cases hh : j.get? "hash" with
        | none => simp [hh] at hf
        | some v =>
          cases v with
          | jstr hstr =>
            have hstep : patchHashStep w f = some hstr := by
              simp [patchHashStep, hj, hp, hh]
            rw [List.find?_cons_of_pos _ (by simp [hp])]
            simp [hstep, Json.strField, hh]
          | jnull => simp [hh] at hf
          | jbool b => simp [hh] at hf
          | jnum n => simp [hh] at hf
          | jarr a => simp [hh] at hf
          | jobj o => simp [hh] at hf
      · have hstep : patchHashStep w f = none := by
          simp [patchHashStep, hj, hp]
        rw [List.find?_cons_of_neg _ (by simp [hp])]
        simp [hstep, ih hrest]

/-- Claim C8: under the data model's well-formedness of parts (a
`"patch"`-typed part carries a string hash), `getPatchHash` returns the
hash of the first parsed part whose `type` is `"patch"`, skipping part
files that fail to parse; it is absent when the part directory cannot be
listed and when no parsed part is `"patch"`-typed. -/
theorem c8_patch_hash (w : World) (mid : String)
    (hwf : (partFilesOf w mid).all (partWellFormed w) = true) :
    ((getPatchHash w mid).1 =
      (((partFilesOf w mid).filterMap (fun f => w.readJson f.path)).find?
        (fun j => j.strField "type" == some "patch")).bind (fun j => j.strField "hash")) ∧
    (w.files (pathJoin partRoot mid) = none → (getPatchHash w mid).1 = none) := by
  constructor
  · have : (getPatchHash w mid).1 = (patchHashLoop w (partFilesOf w mid)).1 := rfl
    rw [this, patchHashLoop_fst, patchScan_eq hwf]
  · intro hn
    simp [getPatchHash, listFiles, hn, patchHashLoop]

theorem c8_witness :
    (getPatchHash wParts "m8").1 = some "h8" :=
  ((c8_patch_hash wParts "m8" (by decide)).1).trans (by decide)

theorem pathJoin_ne (a b : String) : pathJoin a b ≠ a := by
  intro h
  have hl := congrArg String.length h
  unfold pathJoin at hl
  rw [String.length_append, String.length_append] at hl
  have h1 : ("/" : String).length = 1 := rfl
  rw [h1] at hl
  omega

theorem projDirLoop_trace_readFile (w : World) (projectId : String) (l : List String) :
    ∀ e ∈ (projDirLoop w projectId l).2, ∃ p, e = Eff.readFile p := by
  induction l with
  | nil => intro e he; cases he
  | cons p rest ih =>
    intro e he
    simp only [projDirLoop] at he
    split at he
    · rcases List.mem_singleton.1 he with rfl
      exact ⟨p, rfl⟩
    · rcases List.mem_cons.1 he with rfl | he
      · exact ⟨p, rfl⟩
      · exact ih e he

theorem listFiles_trace_shape (w : World) (dir : String) :
    ∀ e ∈ (listFiles w dir).2, e = Eff.readdir dir ∨ ∃ p, e = Eff.statted p := by
  unfold listFiles
  cases h : w.files dir with
  | none => intro e he; rcases List.mem_singleton.1 he with rfl; exact Or.inl rfl
  | some es =>
    intro e he
    rcases List.mem_cons.1 he with rfl | he
    · exact Or.inl rfl
    · rcases List.mem_map.1 he with ⟨x, _, rfl⟩
      exact Or.inr ⟨_, rfl⟩

/-- Counterexample to claim C7: the sole candidate for project `p1`
records `directory: ""`, which is not a non-empty string, yet
`getProjectDirectory` returns `some ""` rather than absent. -/
theorem c7_counterexample :
    wDirBlank.readJson (pathJoin (pathJoin sessionRoot "p1") "s.json") =
      some (Json.jobj [("projectID", Json.jstr "p1"), ("directory", Json.jstr "")]) ∧
    (getProjectDirectory wDirBlank "p1").1 = some "" ∧
    (getProjectDirectory wDirBlank "p1").1 ≠ none :=
  ⟨rfl, by decide, by decide⟩

/-- Claim C7 (amended): `getProjectDirectory` collects candidates from
the same-named project subdirectory first and scans all projects only
when that yields none; it returns the `directory` field of the first
candidate whose `projectID` matches and whose `directory` is a string
(matching candidates with a non-string `directory` are skipped, and an
empty-string `directory` is returned as-is); it is absent when no such
candidate exists. -/
theorem c7_project_directory (w : World) (projectId : String) :
    ((getProjectDirectory w projectId).1 =
      ((projDirCandidates w projectId).1.filterMap (projDirStep w projectId)).head?) ∧
    (w.fsExists (pathJoin sessionRoot projectId) = true →
      ((listFiles w (pathJoin sessionRoot projectId)).1.filter
          (fun f => strEndsWith f.name ".json")) ≠ [] →
      (projDirCandidates w projectId).1 =
        ((listFiles w (pathJoin sessionRoot projectId)).1.filter
          (fun f => strEndsWith f.name ".json")).map (fun f => f.path) ∧
      Eff.readdir sessionRoot ∉ (getProjectDirectory w projectId).2) ∧
    (w.fsExists (pathJoin sessionRoot projectId) = false →
      (projDirCandidates w projectId).1 =
        (collectJsonFiles w (listDirectories w sessionRoot).1).1) := by
  refine ⟨?_, ?_, ?_⟩
  · have : (getProjectDirectory w projectId).1 =
        (projDirLoop w projectId (projDirCandidates w projectId).1).1 := rfl
    rw [this, projDirLoop_fst]
  · intro hex hne
    have hcand : projDirCandidates w projectId =
        (((listFiles w (pathJoin sessionRoot projectId)).1.filter
            (fun f => strEndsWith f.name ".json")).map (fun f => f.path),
         Eff.pathExists (pathJoin sessionRoot projectId) ::
           (listFiles w (pathJoin sessionRoot projectId)).2) := by
      simp only [projDirCandidates, hex, if_true]
      rw [if_neg]
      simp only [List.isEmpty_eq_true, List.map_eq_nil_iff]
      exact hne
    refine ⟨by rw [hcand], ?_⟩
    intro hmem
    have : (getProjectDirectory w projectId).2 =
        (projDirCandidates w projectId).2 ++
          (projDirLoop w projectId (projDirCandidates w projectId).1).2 := rfl
    rw [this, hcand] at hmem
    rcases List.mem_append.1 hmem with hmem | hmem
    · rcases List.mem_cons.1 hmem with h | h
      · cases h
      · rcases listFiles_trace_shape w _ _ h with h | ⟨p, h⟩
        · exact pathJoin_ne sessionRoot projectId (Eff.readdir.inj h).symm
        · cases h
    · rcases projDirLoop_trace_readFile w projectId _ _ hmem with ⟨p, h⟩
      cases h
  · intro hex
    simp [projDirCandidates, hex]

theorem c7_witness :
    (getProjectDirectory wDirBlank "p1").1 = some "" ∧
    Eff.readdir sessionRoot ∉ (getProjectDirectory wDirBlank "p1").2 :=
  ⟨((c7_project_directory wDirBlank "p1").1).trans (by decide),
   ((c7_project_directory wDirBlank "p1").2.1 (by decide) (by decide)).2⟩

/-- Counterexample to claim C1: in `wEmptyDiff` the message id is valid,
the patch hash resolves, the project resolves, the snapshot directory
exists, the hash exists in the snapshot, and the diff subprocess
succeeds (status 0) with empty output — yet `getMessageDiff` returns
absent instead of an empty-text result (`result.stdout || null`). -/
theorem c1_counterexample :
    isValidMessageId "m1" = true ∧
    (getPatchHash wEmptyDiff "m1").1 = some "h1" ∧
    (getProjectIdFromMessage wEmptyDiff "m1").1 = some "p1" ∧
    wEmptyDiff.fsExists (pathJoin snapshotRoot "p1") = true ∧
    (gitCatFileExists wEmptyDiff (pathJoin snapshotRoot "p1") "h1").1 = true ∧
    (runGit wEmptyDiff (messageDiffArgs wEmptyDiff "p1" "h1" (some "b.ts")) none).1.status = 0 ∧
    (getMessageDiff wEmptyDiff "m1" (some "b.ts")).1 = none := by
  refine ⟨by decide, by decide, by decide, by decide, by decide, by decide, by decide⟩

/-- Claim C1 (amended): for a valid message id whose patch hash resolves
to a non-empty string (an empty-string hash is falsy and is treated by
the source as no patch hash at all), whose project resolves, and whose
hash exists in the existing snapshot repository, `getMessageDiff`
returns the diff subprocess's raw stdout when that output is non-empty,
and absent when the output is empty — an empty diff is collapsed into
the same absent value as the not-found cases. -/
theorem c1_message_diff_text (w : World) (m : String) (fp : Option String) (h p : String)
    (hv : isValidMessageId m = true)
    (hph : (getPatchHash w m).1 = some h)
    (hh : h ≠ "")
    (hpid : (getProjectIdFromMessage w m).1 = some p)
    (hex : w.fsExists (pathJoin snapshotRoot p) = true)
    (hce : (gitCatFileExists w (pathJoin snapshotRoot p) h).1 = true) :
    (getMessageDiff w m fp).1 =
      (if (runGit w (messageDiffArgs w p h fp) none).1.stdout = "" then none
       else some ((runGit w (messageDiffArgs w p h fp) none).1.stdout)) := by
  simp only [getMessageDiff, messageDiffArgs, hv, hph, hh, hpid, hex, hce]
  simp

theorem c1_witness :
    (getMessageDiff wHappy "m1" none).1 = some "DIFF" :=
  (c1_message_diff_text wHappy "m1" none "h1" "p1" (by decide) (by decide) (by decide)
    (by decide) (by decide) (by decide)).trans (by decide)

theorem applyPatch_not_mem_of_noApplyB {t : List Eff} (h : noApplyB t = true)
    (c p : String) : Eff.applyPatch c p ∉ t := by
  intro hm
  simp only [noApplyB, List.all_eq_true] at h
  have := h _ hm
  simp [Eff.isApply] at this

/-- Claim C6: in the revert operation a response other than `"y"`/`"Y"`
at the confirmation prompt means the reverse-apply subprocess is never
invoked and the outcome is never a working-tree mutation (neither a
successful nor a failed apply). -/
theorem c6_revert_requires_confirmation (w : World) (m f resp : String)
    (h1 : resp ≠ "y") (h2 : resp ≠ "Y") :
    (∀ c p, Eff.applyPatch c p ∉ (agent_revert_file w m f resp).2) ∧
    (agent_revert_file w m f resp).1 ≠ RevertOutcome.applied ∧
    (agent_revert_file w m f resp).1 ≠ RevertOutcome.applyFailed := by
  have hph := noApplyB_of_noSpawnB (noSpawnB_getPatchHash w m)
  have hpid := noApplyB_of_noSpawnB (noSpawnB_getProjectIdFromMessage w m)
  have hpd := fun pid => noApplyB_of_noSpawnB (noSpawnB_getProjectDirectory w pid)
  have hce := fun d h => noApplyB_gitCatFileExists w d h
  have hrg := fun a c => noApplyB_runGit w a c
  have hval : ∀ sd pd hh,
      noApplyB (revertValidated w f resp sd pd hh).2 = true ∧
      (revertValidated w f resp sd pd hh).1 ≠ RevertOutcome.applied ∧
      (revertValidated w f resp sd pd hh).1 ≠ RevertOutcome.applyFailed := by
    intro sd pd hh
    simp only [revertValidated]
    split
    · exact ⟨hce _ _, by simp, by simp⟩
    split
    · exact ⟨noApplyB_append (hce _ _) (hrg _ _), by simp, by simp⟩
    split
    · exact ⟨noApplyB_append (noApplyB_append (hce _ _) (hrg _ _)) (hrg _ _),
        by simp, by simp⟩
    split
    · exact ⟨noApplyB_append (noApplyB_append (hce _ _) (hrg _ _)) (hrg _ _),
        by simp, by simp⟩
    split
    · exact ⟨noApplyB_append (noApplyB_append (hce _ _) (hrg _ _)) (hrg _ _),
        by simp, by simp⟩
    · rename_i hcond
      exact absurd ⟨h1, h2⟩ hcond
  have hA : noApplyB (agent_revert_file w m f resp).2 = true ∧
      (agent_revert_file w m f resp).1 ≠ RevertOutcome.applied ∧
      (agent_revert_file w m f resp).1 ≠ RevertOutcome.applyFailed := by
    simp only [agent_revert_file]
    split
    · exact ⟨rfl, by simp, by simp⟩
    split
    · exact ⟨rfl, by simp, by simp⟩
    split
    · exact ⟨hph, by simp, by simp⟩
    split
    · exact ⟨hph, by simp, by simp⟩
    split
    · exact ⟨noApplyB_append hph hpid, by simp, by simp⟩
    split
    · exact ⟨noApplyB_append (noApplyB_append hph hpid) rfl, by simp, by simp⟩
    split
    · exact ⟨noApplyB_append (noApplyB_append (noApplyB_append hph hpid) rfl) (hpd _),
        by simp, by simp⟩
    split
    · exact ⟨noApplyB_append (noApplyB_append (noApplyB_append hph hpid) rfl) (hpd _),
        by simp, by simp⟩
    split
    · exact ⟨noApplyB_append
        (noApplyB_append (noApplyB_append (noApplyB_append hph hpid) rfl) (hpd _)) rfl,
        by simp, by simp⟩
    · refine ⟨noApplyB_append (noApplyB_append (noApplyB_append
        (noApplyB_append (noApplyB_append hph hpid) rfl) (hpd _)) rfl)
        (hval _ _ _).1, ?_, ?_⟩
      · exact (hval _ _ _).2.1
      · exact (hval _ _ _).2.2
  exact ⟨fun c p => applyPatch_not_mem_of_noApplyB hA.1 c p, hA.2⟩

theorem c6_witness :
    (∀ c p, Eff.applyPatch c p ∉ (agent_revert_file wHappy "m1" "a.ts" "n").2) ∧
    (agent_revert_file wHappy "m1" "a.ts" "n").1 ≠ RevertOutcome.applied ∧
    (agent_revert_file wHappy "m1" "a.ts" "n").1 ≠ RevertOutcome.applyFailed :=
  c6_revert_requires_confirmation wHappy "m1" "a.ts" "n" (by decide) (by decide)

theorem sessionMsgLoop_hasSnapshot_false (w : World) (l : List Entry) :
    ∀ msg ∈ (sessionMsgLoop w "" l).1, msg.hasSnapshot = false := by
  induction l with
  | nil => intro msg hm; cases hm
  | cons f rest ih =>
    intro msg hm
    simp only [sessionMsgLoop] at hm
    split at hm
    · split at hm
      · exact ih msg hm
      · rcases List.mem_cons.1 hm with rfl | hm
        · simp
        · exact ih msg hm
    · exact ih msg hm

theorem sessionMsgLoop_ids (w : World) (sd : String) (l : List Entry) :
    (sessionMsgLoop w sd l).1.map (fun msg => (msg.id, msg.hash)) =
      l.filterMap (fun f =>
        match (getPatchHash w (stripJson f.name)).1 with
        | some h => if h = "" then none else some (stripJson f.name, h)
        | none => none) := by
  induction l with
  | nil => rfl
  | cons f rest ih =>
    simp only [sessionMsgLoop, List.filterMap_cons]
    split
    · rename_i h hh
      by_cases hh2 : h = ""
      · simp [hh2, ih]
      · simp [hh2, ih]
    · rename_i hh
      simp [ih]

/-- Claim C9: when a valid session's project id cannot be resolved,
`getSessionMessages` still returns the session's patch-bearing messages
(those whose patch hash is present and non-empty — `if (hash)` — with
the same ids and hashes, in the same order), every returned message has
`hasSnapshot = false`, and no subprocess is spawned at all — in
particular no snapshot-existence check runs. -/
theorem c9_no_project_still_lists (w : World) (sid : String)
    (hv : isValidSessionId sid = true)
    (hdir : w.fsExists (pathJoin messageRoot sid) = true)
    (hpid : (getProjectIdFromSession w sid).1 = none) :
    (∀ msg ∈ (getSessionMessages w sid).1, msg.hasSnapshot = false) ∧
    (∀ e ∈ (getSessionMessages w sid).2, e.isSpawn = false) ∧
    (getSessionMessages w sid).1.map (fun msg => (msg.id, msg.hash)) =
      (sortByMtimeDesc ((listFiles w (pathJoin messageRoot sid)).1.filter
        (fun f => strEndsWith f.name ".json"))).filterMap
        (fun f =>
          match (getPatchHash w (stripJson f.name)).1 with
          | some h => if h = "" then none else some (stripJson f.name, h)
          | none => none) := by
  have hmain : getSessionMessages w sid =
      ((sessionMsgLoop w ""
          (sortByMtimeDesc ((listFiles w (pathJoin messageRoot sid)).1.filter
            (fun f => strEndsWith f.name ".json")))).1,
        Eff.pathExists (pathJoin messageRoot sid) ::
          ((getProjectIdFromSession w sid).2 ++ (listFiles w (pathJoin messageRoot sid)).2 ++
            (sessionMsgLoop w ""
              (sortByMtimeDesc ((listFiles w (pathJoin messageRoot sid)).1.filter
                (fun f => strEndsWith f.name ".json")))).2)) := by
    simp only [getSessionMessages, hv, hdir, hpid]
    simp
  refine ⟨?_, ?_, ?_⟩
  · rw [hmain]
    exact sessionMsgLoop_hasSnapshot_false w _
  · rw [hmain]
    intro e he
    rcases List.mem_cons.1 he with rfl | he
    · rfl
    · rcases List.mem_append.1 he with he | he
      · rcases List.mem_append.1 he with he | he
        · have := noSpawnB_getProjectIdFromSession w sid
          simp only [noSpawnB, List.all_eq_true] at this
          simpa using this e he
        · have := noSpawnB_listFiles w (pathJoin messageRoot sid)
          simp only [noSpawnB, List.all_eq_true] at this
          simpa using this e he
      · have := noSpawnB_sessionMsgLoop_noSnapshot w
          (sortByMtimeDesc ((listFiles w (pathJoin messageRoot sid)).1.filter
            (fun f => strEndsWith f.name ".json")))
        simp only [noSpawnB, List.all_eq_true] at this
        simpa using this e he
  · rw [hmain]
    exact sessionMsgLoop_ids w "" _

/-- A world with one session `ses_a` holding a patch-bearing message
`m1`, but no session metadata at all, so no project id resolves. -/
def wNoProj : World where
  dirs := fun d => if d = messageRoot then some [⟨"ses_a", 10⟩] else none
  files := fun d =>
    if d = pathJoin partRoot "m1" then some [⟨"0.json", 1⟩]
    else if d = pathJoin messageRoot "ses_a" then some [⟨"m1.json", 5⟩]
    else none
  fsExists := fun p => p = pathJoin messageRoot "ses_a"
  readJson := fun p =>
    if p = pathJoin (pathJoin partRoot "m1") "0.json" then some patchPartJson else none
  git := fun _ _ => ⟨some 0, some "", some ""⟩
  gitApply := fun _ _ => ⟨some 0, some "", some ""⟩
  fmtDate := fun _ => ""

theorem c9_witness :
    (getSessionMessages wNoProj "ses_a").1.map (fun msg => (msg.id, msg.hash)) =
      [("m1", "h1")] :=
  ((c9_no_project_still_lists wNoProj "ses_a" (by decide) (by decide) (by decide)).2.2).trans
    (by decide)

/-- Claim C4: every entry `getFileHistory` returns comes from one of the
`limit` most-recently-modified sessions, carries that session's name and
a message whose patch hash resolves to the entry's hash, and its
project's changed-path set (the split `git diff --name-only` output)
contains the searched path as an exact string member. -/
theorem c4_file_history_exact_match (w : World) (filePath : String) (limit : Nat)
    (e : FileHistoryEntry) (he : e ∈ (getFileHistory w filePath limit).1) :
    ∃ d ∈ takenSessionDirs w limit, e.sessionId = d.name ∧
      (getPatchHash w e.messageId).1 = some e.hash ∧
      ∃ projectId, (getProjectIdFromMessage w e.messageId).1 = some projectId ∧
        (gitCatFileExists w (pathJoin snapshotRoot projectId) e.hash).1 = true ∧
        filePath ∈ (changedPaths w projectId (pathJoin snapshotRoot projectId) e.hash).1 := by
  rw [getFileHistory_fst] at he
  rcases List.mem_flatMap.1 he with ⟨d, hd, he⟩
  simp only [sessionChunk, fileHistoryMsgs_fst] at he
  rcases List.mem_filterMap.1 he with ⟨f, hf, hstep⟩
  obtain ⟨hmid, hsid, -, hph, projectId, hpid, hce, hcp⟩ := fileHistoryStep_eq_some hstep
  refine ⟨d, hd, hsid, ?_, projectId, ?_, hce, hcp⟩
  · rw [hmid]; exact hph
  · rw [hmid]; exact hpid

theorem c4_witness :
    (getPatchHash wHappy "m1").1 = some "h1" ∧
    "a.ts" ∈ (changedPaths wHappy "p1" (pathJoin snapshotRoot "p1") "h1").1 := by
  obtain ⟨d, hd, hsid, hph, projectId, hpid, hce, hcp⟩ :=
    c4_file_history_exact_match wHappy "a.ts" 10
      { messageId := "m1", sessionId := "ses_a", sessionTitle := "T",
        timestamp := "1970-01-01 00:00", hash := "h1" } (by decide)
  have hp : projectId = "p1" := by
    have : (getProjectIdFromMessage wHappy "m1").1 = some "p1" := by decide
    exact (by simpa [this] using hpid : "p1" = projectId).symm
  exact ⟨hph, hp ▸ hcp⟩

/-- The `ses_`-prefixed session directories of the message root. -/
def filteredSessions (w : World) : List Entry :=
  (listDirectories w messageRoot).1.filter (fun d => strStartsWith d.name "ses_")

/-- The `.json` message files of one session directory. -/
def msgFilesOf (w : World) (sid : String) : List Entry :=
  (listFiles w (pathJoin messageRoot sid)).1.filter (fun f => strEndsWith f.name ".json")

/-- The modification time of a session, looked up by directory name. -/
def sessionMtime (w : World) (sid : String) : Int :=
  match (filteredSessions w).find? (fun d => d.name == sid) with
  | some d => d.mtimeMs
  | none => 0

/-- The modification time of a message file, looked up by message id. -/
def messageMtime (w : World) (sid mid : String) : Int :=
  match (msgFilesOf w sid).find? (fun f => stripJson f.name == mid) with
  | some f => f.mtimeMs
  | none => 0

/-- "Newest first" order on file-history entries: the earlier entry's
session is at least as recently modified, and within one session the
earlier entry's message file is at least as recently modified. -/
def histOrder (w : World) (a b : FileHistoryEntry) : Prop :=
  sessionMtime w b.sessionId ≤ sessionMtime w a.sessionId ∧
  (a.sessionId = b.sessionId →
    messageMtime w b.sessionId b.messageId ≤ messageMtime w a.sessionId a.messageId)

theorem takenSessionDirs_eq (w : World) (limit : Nat) :
    takenSessionDirs w limit = (sortByMtimeDesc (filteredSessions w)).take limit := rfl

theorem mem_takenSessionDirs {w : World} {limit : Nat} {d : Entry}
    (hd : d ∈ takenSessionDirs w limit) : d ∈ filteredSessions w :=
  mem_sortByMtimeDesc.1 (List.mem_of_mem_take hd)

theorem sessionMtime_eq {w : World} {d : Entry} (hd : d ∈ filteredSessions w)
    (hS : ((filteredSessions w).map (fun d => d.name)).Nodup) :
    sessionMtime w d.name = d.mtimeMs := by
  unfold sessionMtime
  rw [find?_key_eq hd hS]

theorem messageMtime_eq {w : World} {sid : String} {f : Entry} (hf : f ∈ msgFilesOf w sid)
    (hM : ((msgFilesOf w sid).map (fun f => stripJson f.name)).Nodup) :
    messageMtime w sid (stripJson f.name) = f.mtimeMs := by
  unfold messageMtime
  rw [find?_key_eq hf hM]

theorem filteredSessions_path {w : World} {d : Entry} (hd : d ∈ filteredSessions w) :
    d.path = pathJoin messageRoot d.name :=
  listDirectories_path (List.mem_filter.1 hd).1

theorem chunk_pairwise {w : World} {filePath : String} {d : Entry}
    (hd : d ∈ filteredSessions w)
    (hM : ((msgFilesOf w d.name).map (fun f => stripJson f.name)).Nodup) :
    (sessionChunk w filePath d).Pairwise (histOrder w) := by
  have hpath := filteredSessions_path hd
  simp only [sessionChunk, fileHistoryMsgs_fst, hpath]
  apply List.pairwise_filterMap.2
  have hsorted := sorted_sortByMtimeDesc
    ((listFiles w (pathJoin messageRoot d.name)).1.filter (fun f => strEndsWith f.name ".json"))
  refine hsorted.imp_of_mem ?_
  intro f g hfmem hgmem hfg x hx y hy
  simp only [Option.mem_def] at hx hy
  obtain ⟨hxm, hxs, -, -, -⟩ := fileHistoryStep_eq_some hx
  obtain ⟨hym, hys, -, -, -⟩ := fileHistoryStep_eq_some hy
  have hfmem2 : f ∈ msgFilesOf w d.name := mem_sortByMtimeDesc.1 hfmem
  have hgmem2 : g ∈ msgFilesOf w d.name := mem_sortByMtimeDesc.1 hgmem
  constructor
  · rw [hxs, hys]
  · intro _
    rw [hxs, hys, hxm, hym, messageMtime_eq hfmem2 hM, messageMtime_eq hgmem2 hM]
    exact hfg

theorem mem_sessionChunk_sessionId {w : World} {filePath : String} {d : Entry}
    {e : FileHistoryEntry} (he : e ∈ sessionChunk w filePath d) : e.sessionId = d.name := by
  simp only [sessionChunk, fileHistoryMsgs_fst] at he
  rcases List.mem_filterMap.1 he with ⟨f, -, hstep⟩
  exact (fileHistoryStep_eq_some hstep).2.1

/-- Claim C5: `getFileHistory`'s entries are ordered session-recency
first and message-recency within a session (modification time,
descending; newest first), the computation performs no working-tree
mutation (`git apply` is never invoked), and — the world being read-only
for this operation — a second call over the same storage and subprocess
behaviour returns the identical result. The duplicate-freeness
hypotheses state that directory listings do not repeat names, as a real
filesystem guarantees. -/
theorem c5_file_history_order (w : World) (filePath : String) (limit : Nat)
    (hS : ((filteredSessions w).map (fun d => d.name)).Nodup)
    (hM : ∀ d ∈ takenSessionDirs w limit,
      ((msgFilesOf w d.name).map (fun f => stripJson f.name)).Nodup) :
    (getFileHistory w filePath limit).1.Pairwise (histOrder w) ∧
    (∀ e ∈ (getFileHistory w filePath limit).2, e.isApply = false) ∧
    (∀ w' : World, w' = w →
      getFileHistory w' filePath limit = getFileHistory w filePath limit) := by
  refine ⟨?_, ?_, ?_⟩
  · rw [getFileHistory_fst]
    apply List.pairwise_flatMap.2
    constructor
    · intro d hd
      exact chunk_pairwise (mem_takenSessionDirs hd) (hM d hd)
    · have hsorted : (takenSessionDirs w limit).Pairwise mtimeGE := by
        rw [takenSessionDirs_eq]
        exact (sorted_sortByMtimeDesc _).take
      have hnames : ((takenSessionDirs w limit).map (fun d => d.name)).Nodup := by
        rw [takenSessionDirs_eq, List.map_take]
        refine List.Nodup.sublist (List.take_sublist _ _) ?_
        exact (((sortByMtimeDesc_perm (filteredSessions w)).map
          (fun d => d.name)).nodup_iff).2 hS
      have hne : (takenSessionDirs w limit).Pairwise (fun a b => a.name ≠ b.name) :=
        List.pairwise_map.1 hnames
      refine ((hsorted.and hne).imp_of_mem ?_)
      intro d₁ d₂ hd₁ hd₂ hcond x hx y hy
      rcases hcond with ⟨hmt, hname⟩
      have hx1 := mem_sessionChunk_sessionId hx
      have hy1 := mem_sessionChunk_sessionId hy
      constructor
      · rw [hx1, hy1, sessionMtime_eq (mem_takenSessionDirs hd₁) hS,
          sessionMtime_eq (mem_takenSessionDirs hd₂) hS]
        exact hmt
      · intro hxy
        exact absurd (hx1 ▸ hy1 ▸ hxy) hname
  · intro e he
    have := noApplyB_getFileHistory w filePath limit
    simp only [noApplyB, List.all_eq_true] at this
    simpa using this e he
  · intro w' hw
    rw [hw]

theorem c5_witness :
    (getFileHistory wHappy "a.ts" 10).1.Pairwise (histOrder wHappy) :=
  (c5_file_history_order wHappy "a.ts" 10 (by decide) (by decide)).1
